import Mathlib

/-!
# Verification of `IPython/extensions/version_information.py`

A shallow embedding of the `%version_information` IPython magic: a version
collector (`version_information`) that builds a `Report` of (name, version)
pairs plus a timestamp, and four renderers (plain/pretty, HTML, JSON, LaTeX)
over that report.

Python-level effects are made explicit: the ambient interpreter state that the
collector reads (`sys.version`, `IPython.__version__`, `os.name`,
`sys.platform`, dynamic module import, `pkg_resources`) is a record `Env` of
input data, and the clock value is passed as the already-formatted timestamp
string.  Dynamic version lookup (`exec("import m; version=m.__version__")`) and
the `pkg_resources.require(m)[0].version` fallback are modelled as functions
`String → Except String String` in `Env`: `.ok v` is a successful lookup,
`.error e` is a raised exception whose `str(...)` is `e`.
-/

namespace VersionInfo

/-- A collected report: the ordered (name, version) entries (`self.packages`)
plus the capture timestamp (`self.time`). -/
structure Report where
  packages : List (String × String)
  time : String
deriving DecidableEq, Repr

/-- The ambient interpreter environment read by the collector. -/
structure Env where
  /-- `sys.version` (may contain newlines). -/
  sysVersion : String
  /-- `IPython.__version__`. -/
  ipythonVersion : String
  /-- `os.name`. -/
  osName : String
  /-- `sys.platform`. -/
  sysPlatform : String
  /-- Outcome of `exec("import m; version=m.__version__")` for module `m`:
  `.ok v` when the import succeeds and the module has `__version__ = v`,
  `.error e` when any exception is raised, with `e = str(exception)`. -/
  attrVersion : String → Except String String
  /-- The `pkg_resources` registry: `none` when `import pkg_resources` failed
  (`pkg_resources = None`), otherwise the outcome of
  `pkg_resources.require(m)[0].version`, with errors stringified as above. -/
  pkgResources : Option (String → Except String String)

/-- `sys.version.replace("\n", "")`: delete every newline character. -/
def removeNewlines (s : String) : String :=
  ⟨s.data.filter (fun c => c ≠ '\n')⟩

/-- `line.replace(' ', '')`: delete every space character (U+0020) from the
whole line — wherever it occurs, not only around commas. -/
def stripSpaces (s : String) : String :=
  ⟨s.data.filter (fun c => c ≠ ' ')⟩

/-- Python's `str.split(",")` on a character list: split at every comma,
keeping empty pieces (so `"".split(",") == [""]`). -/
def splitCommas : List Char → List (List Char)
  | [] => [[]]
  | c :: cs =>
    if c = ',' then [] :: splitCommas cs
    else
      match splitCommas cs with
      | [] => [[c]]
      | t :: ts => (c :: t) :: ts

/-- The version-resolution fallback chain for one module name (the
`try/except` ladder in `version_information`, lines 87–99): first
`m.__version__`; on any exception, `pkg_resources.require(m)[0].version`
unless `pkg_resources is None`, in which case the first exception is
re-raised; any exception of the second step (including the re-raised first
one) is caught and stringified into the entry. -/
def resolve (env : Env) (m : String) : String :=
  match env.attrVersion m with
  | .ok v => v
  | .error e1 =>
    match env.pkgResources with
    | none => e1
    | some req =>
      match req m with
      | .ok v => v
      | .error e2 => e2

/-- The `for module in modules:` loop body: append one `(module, version)`
entry for each token of positive length, skipping empty tokens. -/
def collectLoop (env : Env) : List (List Char) → List (String × String)
  | [] => []
  | m :: ms =>
    if 0 < m.length then (⟨m⟩, resolve env ⟨m⟩) :: collectLoop env ms
    else collectLoop env ms

/-- The three fixed header entries (lines 81–83). -/
def headerPackages (env : Env) : List (String × String) :=
  [("Python", removeNewlines env.sysVersion),
   ("IPython", env.ipythonVersion),
   ("OS", env.osName ++ " [" ++ env.sysPlatform ++ "]")]

/-- The collector (`version_information`, lines 79–100): capture the
timestamp, build the three header entries, tokenize the argument line by
deleting spaces and splitting on commas, and append one resolved entry per
non-empty token. -/
def version_information (env : Env) (t : String) (line : String) : Report :=
  { packages :=
      headerPackages env ++ collectLoop env (splitCommas (stripSpaces line).data),
    time := t }

/-- The non-empty tokens the collector derives from the argument line. -/
def tokensOf (line : String) : List String :=
  ((splitCommas (stripSpaces line).data).map
    (fun m => (⟨m⟩ : String))).filter (fun m => m ≠ "")

/-! ## Renderers -/

/-- Python's `''.join(...)` over an explicit list of yielded pieces. -/
def strJoin : List String → String
  | [] => ""
  | s :: ss => s ++ strJoin ss

/-- Python's `sep.join(...)`. -/
def sepJoin (sep : String) : List String → String
  | [] => ""
  | [s] => s
  | s :: ss => s ++ sep ++ sepJoin sep ss

/-- The escaping performed by the stdlib call `cgi.escape(version)` at line
114.  `cgi.escape` with its default `quote=False` replaces `&` by `&amp;`
first, then `<` by `&lt;`, then `>` by `&gt;` (and does NOT touch `"`); since
`&` is replaced before the passes that introduce new `&`, this equals the
character-by-character map below. -/
def cgiEscapeChar (c : Char) : String :=
  if c = '&' then "&amp;"
  else if c = '<' then "&lt;"
  else if c = '>' then "&gt;"
  else ⟨[c]⟩

/-- `cgi.escape(s)` (default `quote=False`). -/
def cgi_escape (s : String) : String := strJoin (s.data.map cgiEscapeChar)

/-- The pieces yielded by the `__repr_html` generator (lines 110–117). -/
def htmlPieces (r : Report) : List String :=
  ["<table>", "<tr><th>Software</th><th>Version</th></tr>"]
  ++ r.packages.map
      (fun p => "<tr><td>" ++ p.1 ++ "</td><td>" ++ cgi_escape p.2 ++ "</td></tr>")
  ++ ["<tr><td colspan=\x272\x27>" ++ r.time ++ "</td></tr>", "</table>"]

/-- `_repr_html_` (lines 109–118): `''.join` of the generated pieces. -/
def _repr_html_ (r : Report) : String := strJoin (htmlPieces r)

/-- The per-character LaTeX escape table `CHARS` of `_latex_escape`
(lines 122–135): `CHARS.get(c, c)`.  (`Char.ofNat 123` and `Char.ofNat 125`
are the opening and closing curly-brace characters.) -/
def latexEscapeChar (c : Char) : String :=
  if c = '&' then "\\&"
  else if c = '%' then "\\%"
  else if c = '$' then "\\$"
  else if c = '#' then "\\#"
  else if c = '_' then "\\letterunderscore\x7b\x7d"
  else if c = Char.ofNat 123 then "\\letteropenbrace\x7b\x7d"
  else if c = Char.ofNat 125 then "\\letterclosebrace\x7b\x7d"
  else if c = '~' then "\\lettertilde\x7b\x7d"
  else if c = '^' then "\\letterhat\x7b\x7d"
  else if c = '\\' then "\\letterbackslash\x7b\x7d"
  else if c = '>' then "\\textgreater"
  else if c = '<' then "\\textless"
  else ⟨[c]⟩

/-- `_latex_escape` (lines 120–136): `u"".join([CHARS.get(c, c) for c in s])`. -/
def _latex_escape (s : String) : String := strJoin (s.data.map latexEscapeChar)

/-- The pieces yielded by the `__repr_latex` generator (lines 139–146).  The
Python source uses raw strings, so each `\n` there is a literal backslash
followed by `n`, not a newline. -/
def latexPieces (r : Report) : List String :=
  ["\\begin\x7btabular\x7d\x7b|l|l|\x7d\\hline\\n",
   "\x7b\\bf Software\x7d & \x7b\\bf Version\x7d \\\\ \\hline\\hline\\n"]
  ++ r.packages.map
      (fun p => p.1 ++ " & " ++ _latex_escape p.2 ++ " \\\\ \\hline\\n")
  ++ ["\\hline \\multicolumn\x7b2\x7d\x7b|l|\x7d\x7b" ++ r.time ++ "\x7d \\\\ \\hline\\n",
      "\\end\x7btabular\x7d\\n"]

/-- `_repr_latex_` (lines 138–147). -/
def _repr_latex_ (r : Report) : String := strJoin (latexPieces r)

/-- The pieces yielded by the `__repr_pretty` generator (lines 150–157):
banner, timestamp line, the first three entries as `# name: version` comment
lines, the remaining entries as `name==version` pin lines. -/
def prettyPieces (r : Report) : List String :=
  ["# Software versions\n# -----------------\n",
   "# " ++ r.time ++ "\n"]
  ++ (r.packages.take 3).map (fun p => "# " ++ p.1 ++ ": " ++ p.2 ++ "\n")
  ++ (r.packages.drop 3).map (fun p => p.1 ++ "==" ++ p.2 ++ "\n")

/-- `_repr_pretty_` (lines 149–158): the string passed to `pp.text`. -/
def _repr_pretty_ (r : Report) : String := strJoin (prettyPieces r)

/-- Hexadecimal digit characters `0`–`9`, `a`–`f`. -/
def hexDigitChar (n : Nat) : Char :=
  if n < 10 then Char.ofNat (48 + n) else Char.ofNat (87 + n)

/-- The string escaping of `json.dumps` (line 107).  We model the
`ensure_ascii=False` spelling: `"` and `\` are backslash-escaped, the control
characters get their short escapes (`\n`, `\r`, `\t`, `\b`, `\f`) or a
`\u00XX` escape, and every other character passes through.  (The default
`ensure_ascii=True` additionally spells non-ASCII characters as `\uXXXX`
escapes — a different spelling of the same JSON string value.) -/
def jsonEscapeChar (c : Char) : String :=
  if c = '"' then "\\\""
  else if c = '\\' then "\\\\"
  else if c = '\n' then "\\n"
  else if c = '\r' then "\\r"
  else if c = '\t' then "\\t"
  else if c = Char.ofNat 8 then "\\b"
  else if c = Char.ofNat 12 then "\\f"
  else if c.toNat < 32 then
    ⟨['\\', 'u', '0', '0', hexDigitChar (c.toNat / 16), hexDigitChar (c.toNat % 16)]⟩
  else ⟨[c]⟩

/-- A JSON string literal: quote, escaped body, quote. -/
def jsonStr (s : String) : String := "\"" ++ strJoin (s.data.map jsonEscapeChar) ++ "\""

/-- One element of the `'Software versions'` array (lines 104–106): a JSON
object with keys in dict insertion order `module`, `version`, serialized with
`json.dumps`'s default separators `", "` and `": "`. -/
def jsonEntry (p : String × String) : String :=
  "\x7b\"module\": " ++ jsonStr p.1 ++ ", \"version\": " ++ jsonStr p.2 ++ "\x7d"

/-- `_repr_json_` (lines 102–107): `json.dumps` of the object
`{'Software versions': [{'module': name, 'version': version}, ...]}`. -/
def _repr_json_ (r : Report) : String :=
  "\x7b\"Software versions\": [" ++ sepJoin ", " (r.packages.map jsonEntry) ++ "]\x7d"

/-! ## Rendering as state transformers

The four render methods only read `self.packages` and `self.time`; none of
them assigns any attribute, so as a transformer of the instance state each
returns its string and the state unchanged. -/

/-- The four output formats dispatched by the host front end. -/
inductive Format
  | pretty
  | html
  | json
  | latex
deriving DecidableEq, Repr

/-- Which render method a format selects. -/
def renderOf : Format → Report → String
  | .pretty => _repr_pretty_
  | .html => _repr_html_
  | .json => _repr_json_
  | .latex => _repr_latex_

/-- One render method call as a transformer of the instance state: the
method bodies (lines 102–158) contain no assignment to `self`, so the state
out is the state in. -/
def renderStep (f : Format) (r : Report) : String × Report := (renderOf f r, r)

/-- A sequence of render calls against the same instance, threading the
state and collecting the returned strings. -/
def runRenders : List Format → Report → List String × Report
  | [], r => ([], r)
  | f :: fs, r =>
    let p := renderStep f r
    let q := runRenders fs p.2
    (p.1 :: q.1, q.2)

/-! ## The shared magic instance

`version_information` assigns `self.time` and `self.packages` on the single
registered `VersionInformation` magics object and `return self` (line 100):
the value the caller receives aliases that shared instance.  `MagicInstance`
is that object's state; observing a previously returned result after a later
call reads the current state. -/

/-- The mutable state of the registered magics object: `none` before the
first call (the attributes are unset), otherwise the last collected report. -/
structure MagicInstance where
  report : Option Report
deriving DecidableEq, Repr

/-- One `%version_information` invocation: overwrite `self.time` and
`self.packages` with freshly collected data and return `self`. -/
def invoke (_inst : MagicInstance) (env : Env) (t : String) (line : String) :
    MagicInstance :=
  { report := some (version_information env t line) }

/-! ## Spec-side definitions

For the refinement-style comparisons, definitions written from the spec's
words rather than from the source. -/

/-- Python's default `str.strip` whitespace class. -/
def isPySpace (c : Char) : Bool :=
  c = ' ' || c = '\t' || c = '\n' || c = '\r' || c = '\x0b' || c = '\x0c'

/-- Strip whitespace from both ends of a token. -/
def trimChars (l : List Char) : List Char :=
  ((l.dropWhile isPySpace).reverse.dropWhile isPySpace).reverse

/-- Tokenization as the spec words it: split on commas, strip whitespace
around each entry, skip empty entries. -/
def specTokens (line : String) : List String :=
  ((splitCommas line.data).map
    (fun tk => (⟨trimChars tk⟩ : String))).filter (fun m => m ≠ "")

/-- HTML escaping as the spec words it: ampersand, angle brackets, AND
quotes. -/
def htmlSpecEscapeChar (c : Char) : String :=
  if c = '&' then "&amp;"
  else if c = '<' then "&lt;"
  else if c = '>' then "&gt;"
  else if c = '"' then "&quot;"
  else ⟨[c]⟩

/-- Spec-side HTML escape of a whole string. -/
def htmlSpecEscape (s : String) : String := strJoin (s.data.map htmlSpecEscapeChar)

/-! ## A JSON parser for the round-trip claim

A standalone parser for the exact canonical shape `json.dumps` emits for the
report object: `{"Software versions": [<entries>]}` with entries
`{"module": <string>, "version": <string>}` separated by `", "`. -/

/-- Value of a hexadecimal digit character (digits and lowercase letters). -/
def hexVal (c : Char) : Option Nat :=
  if 48 ≤ c.toNat ∧ c.toNat ≤ 57 then some (c.toNat - 48)
  else if 97 ≤ c.toNat ∧ c.toNat ≤ 102 then some (c.toNat - 87)
  else none

/-- Decode four hexadecimal digits, most significant first. -/
def hex4 (h1 h2 h3 h4 : Char) : Option Nat :=
  match hexVal h1, hexVal h2, hexVal h3, hexVal h4 with
  | some a, some b, some c, some d => some (4096 * a + 256 * b + 16 * c + d)
  | _, _, _, _ => none

/-- Decode a single-character JSON escape (the character after `\`). -/
def unescapeChar (c : Char) : Option Char :=
  if c = '"' then some '"'
  else if c = '\\' then some '\\'
  else if c = '/' then some '/'
  else if c = 'n' then some '\n'
  else if c = 'r' then some '\r'
  else if c = 't' then some '\t'
  else if c = 'b' then some (Char.ofNat 8)
  else if c = 'f' then some (Char.ofNat 12)
  else none

/-- Parse the body of a JSON string literal (opening quote already consumed)
up to and including its closing quote; return the decoded characters and the
unconsumed tail. -/
def parseStrBody : List Char → Option (List Char × List Char)
  | [] => none
  | c :: rest =>
    if c = '"' then some ([], rest)
    else if c = '\\' then
      match rest with
      | [] => none
      | e :: rest2 =>
        if e = 'u' then
          match rest2 with
          | h1 :: h2 :: h3 :: h4 :: rest3 =>
            match hex4 h1 h2 h3 h4 with
            | some n =>
              match parseStrBody rest3 with
              | some (cs, tail) => some (Char.ofNat n :: cs, tail)
              | none => none
            | none => none
          | _ => none
        else
          match unescapeChar e with
          | some c2 =>
            match parseStrBody rest2 with
            | some (cs, tail) => some (c2 :: cs, tail)
            | none => none
          | none => none
    else
      match parseStrBody rest with
      | some (cs, tail) => some (c :: cs, tail)
      | none => none

/-- Consume an expected literal character sequence. -/
def dropLit : List Char → List Char → Option (List Char)
  | [], l => some l
  | _ :: _, [] => none
  | p :: ps, c :: cs => if c = p then dropLit ps cs else none

/-- Parse one `{"module": <string>, "version": <string>}` object. -/
def parseEntry (l : List Char) : Option ((String × String) × List Char) :=
  match dropLit "\x7b\"module\": \"".data l with
  | none => none
  | some l1 =>
    match parseStrBody l1 with
    | none => none
    | some (m, l2) =>
      match dropLit ", \"version\": \"".data l2 with
      | none => none
      | some l3 =>
        match parseStrBody l3 with
        | none => none
        | some (v, l4) =>
          match dropLit "\x7d".data l4 with
          | none => none
          | some l5 => some ((⟨m⟩, ⟨v⟩), l5)

/-- Parse a non-empty `", "`-separated entry sequence up to and including
the closing `]`.  Fuel bounds the recursion; each step consumes at least one
character, so `input length + 1` fuel always suffices. -/
def parseEntriesAux : Nat → List Char → Option (List (String × String) × List Char)
  | 0, _ => none
  | fuel + 1, l =>
    match parseEntry l with
    | none => none
    | some (p, l2) =>
      match l2 with
      | ']' :: l3 => some ([p], l3)
      | ',' :: ' ' :: l3 =>
        match parseEntriesAux fuel l3 with
        | some (ps, tail) => some (p :: ps, tail)
        | none => none
      | _ => none

/-- Parse a full report rendering back into its entry list. -/
def parseReport (s : String) : Option (List (String × String)) :=
  match dropLit "\x7b\"Software versions\": [".data s.data with
  | none => none
  | some l =>
    match l with
    | ']' :: rest => if rest = ['\x7d'] then some [] else none
    | _ =>
      match parseEntriesAux (l.length + 1) l with
      | some (ps, rest) => if rest = ['\x7d'] then some ps else none
      | none => none

/-- A small concrete environment used to instantiate theorems: `numpy`
resolves through `__version__`, every other import fails, and
`pkg_resources` is unavailable. -/
def env0 : Env :=
  { sysVersion := "3.8.0 (default)\nGCC 9",
    ipythonVersion := "7.0.0",
    osName := "posix",
    sysPlatform := "linux",
    attrVersion := fun m => if m = "numpy" then .ok "1.0" else
      .error ("No module named " ++ m),
    pkgResources := none }

/-! ## Helper lemmas -/

theorem strJoin_append (a b : List String) :
    strJoin (a ++ b) = strJoin a ++ strJoin b := by
  induction a with
  | nil => simp [strJoin]
  | cons s ss ih => simp [strJoin, ih, String.append_assoc]

theorem collectLoop_eq (env : Env) (ms : List (List Char)) :
    collectLoop env ms
      = ((ms.filter (fun m => m ≠ [])).map
          (fun m => ((⟨m⟩ : String), resolve env ⟨m⟩))) := by
  induction ms with
  | nil => rfl
  | cons m ms ih =>
    by_cases h : m = []
    · subst h; simpa [collectLoop] using ih
    · have hl : 0 < m.length := List.length_pos.mpr h
      simp [collectLoop, hl, List.filter_cons, h, ih]

theorem tokensOf_eq (line : String) :
    tokensOf line
      = ((splitCommas (stripSpaces line).data).filter
          (fun m => m ≠ [])).map (fun m => (⟨m⟩ : String)) := by
  unfold tokensOf
  rw [List.filter_map]
  congr 1
  apply List.filter_congr
  intro m _
  simp only [Function.comp_apply, ne_eq, decide_not]
  congr 1
  simp [String.ext_iff]

theorem version_information_packages (env : Env) (t line : String) :
    (version_information env t line).packages
      = headerPackages env ++ (tokensOf line).map (fun m => (m, resolve env m)) := by
  unfold version_information
  simp only [collectLoop_eq, tokensOf_eq, List.map_map]
  rfl

theorem splitCommas_ne_nil (l : List Char) : splitCommas l ≠ [] := by
  cases l with
  | nil => simp [splitCommas]
  | cons c cs =>
    simp only [splitCommas]
    split
    · simp
    · split <;> simp

theorem splitCommas_append (a b : List Char) :
    splitCommas (a ++ ',' :: b) = splitCommas a ++ splitCommas b := by
  induction a with
  | nil => simp [splitCommas]
  | cons c cs ih =>
    by_cases h : c = ','
    · subst h; simp [splitCommas, ih]
    · simp only [List.cons_append, splitCommas, if_neg h, List.append_eq]
      rw [ih]
      cases hcs : splitCommas cs with
      | nil => exact absurd hcs (splitCommas_ne_nil cs)
      | cons t ts => simp

theorem stripSpaces_mk (l : List Char) :
    stripSpaces ⟨l⟩ = ⟨l.filter (fun c => c ≠ ' ')⟩ := rfl

theorem tokensOf_append_comma (l1 l2 : List Char) :
    tokensOf ⟨l1 ++ ',' :: l2⟩ = tokensOf ⟨l1⟩ ++ tokensOf ⟨l2⟩ := by
  simp only [tokensOf_eq, stripSpaces_mk, List.filter_append]
  rw [List.filter_cons_of_pos (by decide), splitCommas_append, List.filter_append,
    List.map_append]

theorem stripSpaces_space_insensitive (l1 l2 : List Char) :
    stripSpaces ⟨l1 ++ ' ' :: l2⟩ = stripSpaces ⟨l1 ++ l2⟩ := by
  simp only [stripSpaces_mk, List.filter_append]
  rw [List.filter_cons_of_neg (by decide)]

/-! ## C1 -/

/-- C1: for every input line the report's entries are the three fixed header
entries (interpreter version with newlines removed, host shell version,
OS name plus platform) followed by one entry per non-empty comma token of
the line in the order supplied (duplicates preserved, since the entries are
the pointwise image of the token list), so the entry count is
3 + the number of non-empty tokens. -/
theorem C1_report_shape (env : Env) (t line : String) :
    (version_information env t line).packages
      = [("Python", removeNewlines env.sysVersion),
         ("IPython", env.ipythonVersion),
         ("OS", env.osName ++ " [" ++ env.sysPlatform ++ "]")]
        ++ (tokensOf line).map (fun m => (m, resolve env m))
    ∧ (version_information env t line).packages.length
        = 3 + (tokensOf line).length := by
  refine ⟨version_information_packages env t line, ?_⟩
  rw [version_information_packages]
  simp [headerPackages]
  omega

/-! ## C3 -/

/-- C3 (counterexample): the collector does not merely strip whitespace
around entries — `line.replace(' ', '')` deletes interior spaces too.  On
the input `"a b"` the spec's tokenization yields the single name `"a b"`,
but the collector produces the entry name `"ab"`, so the report differs
from the claimed one. -/
theorem C3_counterexample :
    specTokens "a b" = ["a b"]
  ∧ tokensOf "a b" = ["ab"]
  ∧ (version_information env0 "T" "a b").packages.map Prod.fst
      = ["Python", "IPython", "OS", "ab"]
  ∧ (version_information env0 "T" "a b").packages
      ≠ headerPackages env0
        ++ (specTokens "a b").map (fun m => (m, resolve env0 m)) := by
  exact ⟨by decide, by decide, by decide, by decide⟩

/-- C3 (amended): tokenization deletes every space character from the whole
line (spaces anywhere — including inside a name — are removed), then splits
on commas and skips empty tokens: inserting a space anywhere leaves the
report unchanged, splitting is a homomorphism over any comma (so leading,
trailing, and doubled commas contribute nothing), and no report entry ever
has an empty name. -/
theorem C3_tokenization_amended (env : Env) (t : String) (l1 l2 : List Char) :
    version_information env t ⟨l1 ++ ' ' :: l2⟩ = version_information env t ⟨l1 ++ l2⟩
  ∧ tokensOf ⟨l1 ++ ',' :: l2⟩ = tokensOf ⟨l1⟩ ++ tokensOf ⟨l2⟩
  ∧ tokensOf ⟨',' :: l1⟩ = tokensOf ⟨l1⟩
  ∧ tokensOf ⟨l1 ++ [',']⟩ = tokensOf ⟨l1⟩
  ∧ ∀ p ∈ (version_information env t ⟨l1⟩).packages, p.1 ≠ "" := by
  refine ⟨?_, tokensOf_append_comma l1 l2, ?_, ?_, ?_⟩
  · unfold version_information
    rw [stripSpaces_space_insensitive]
  · have h := tokensOf_append_comma [] l1
    simpa using h
  · have h := tokensOf_append_comma l1 []
    have h0 : tokensOf (⟨[]⟩ : String) = [] := rfl
    simpa [h0] using h
  · intro p hp
    rw [version_information_packages] at hp
    rcases List.mem_append.mp hp with h | h
    · simp only [headerPackages, List.mem_cons, List.not_mem_nil, or_false] at h
      rcases h with h | h | h <;> subst h <;> simp
    · rcases List.mem_map.mp h with ⟨m, hm, rfl⟩
      unfold tokensOf at hm
      have := (List.mem_filter.mp hm).2
      simpa using this

/-- C3 (witness): the amended theorem applied at concrete inputs — the
doubled-comma input `"a,,b"` tokenizes like `"a,b"`, and the header entry of
a concrete report has a non-empty name. -/
theorem C3_tokenization_amended_witness :
    tokensOf ⟨['a'] ++ ',' :: [',', 'b']⟩ = tokensOf ⟨['a']⟩ ++ tokensOf ⟨[',', 'b']⟩
  ∧ ("Python", "3.8.0 (default)GCC 9").1 ≠ "" :=
  ⟨(C3_tokenization_amended env0 "T" ['a'] [',', 'b']).2.1,
   (C3_tokenization_amended env0 "T" ['a'] []).2.2.2.2
     ("Python", "3.8.0 (default)GCC 9") (by decide)⟩

/-! ## C2 -/

theorem forall2_map_of_forall {α β : Type} (R : β → β → Prop) (f g : α → β)
    (l : List α) (h : ∀ x ∈ l, R (f x) (g x)) :
    List.Forall₂ R (l.map f) (l.map g) := by
  induction l with
  | nil => simp
  | cons a l ih =>
    simp only [List.map_cons]
    exact List.Forall₂.cons (h a (List.mem_cons_self a l))
      (ih (fun x hx => h x (List.mem_cons_of_mem a hx)))

/-- C2: version resolution tries the module's `__version__` first, then the
`pkg_resources` registry; if both fail, or the registry is unavailable, the
entry's version becomes the string of the last error encountered (with no
registry, the first error is re-raised and is that last error).  The
resolver is a total function — no failure escapes to the caller — and a
failing module leaves every other entry of the report unchanged: against
any second environment that resolves all other names identically, the two
reports agree entrywise except possibly at entries named `m`. -/
theorem C2_resolution_chain (env : Env) (m : String) :
    (∀ v, env.attrVersion m = .ok v → resolve env m = v)
  ∧ (∀ e req v, env.attrVersion m = .error e → env.pkgResources = some req →
      req m = .ok v → resolve env m = v)
  ∧ (∀ e req e2, env.attrVersion m = .error e → env.pkgResources = some req →
      req m = .error e2 → resolve env m = e2)
  ∧ (∀ e, env.attrVersion m = .error e → env.pkgResources = none →
      resolve env m = e)
  ∧ ∀ env2 t line,
      headerPackages env2 = headerPackages env →
      (∀ x : String, x ≠ m → resolve env2 x = resolve env x) →
      List.Forall₂ (fun p q => p.1 = q.1 ∧ (p.1 ≠ m → p.2 = q.2))
        (version_information env t line).packages
        (version_information env2 t line).packages := by
  refine ⟨?_, ?_, ?_, ?_, ?_⟩
  · intro v h; simp [resolve, h]
  · intro e req v h1 h2 h3; simp [resolve, h1, h2, h3]
  · intro e req e2 h1 h2 h3; simp [resolve, h1, h2, h3]
  · intro e h1 h2; simp [resolve, h1, h2]
  · intro env2 t line hh hr
    rw [version_information_packages, version_information_packages, hh]
    apply List.rel_append
    · exact List.forall₂_same.mpr (fun p _ => ⟨rfl, fun _ => rfl⟩)
    · apply forall2_map_of_forall
      intro x _
      exact ⟨rfl, fun hx => (hr x hx).symm⟩

/-- C2 (witness): the chain applied in the concrete environment `env0`: a
missing module with no registry gets the stringified import error, and
`numpy` resolves through its `__version__`. -/
theorem C2_resolution_chain_witness :
    resolve env0 "nosuch" = "No module named nosuch"
  ∧ resolve env0 "numpy" = "1.0" :=
  ⟨(C2_resolution_chain env0 "nosuch").2.2.2.1 "No module named nosuch" rfl rfl,
   (C2_resolution_chain env0 "numpy").1 "1.0" rfl⟩

/-! ## C4 -/

theorem latex_escape_singleton (c : Char) :
    _latex_escape ⟨[c]⟩ = latexEscapeChar c := by
  simp [_latex_escape, strJoin]

/-- C4: the LaTeX escaping maps the input character by character in one pass
(it is a homomorphism for concatenation, so output is never re-escaped),
sends each of the twelve table characters to its escape sequence, passes
every other character through unchanged, and in particular escapes
`1.0_beta#2` as claimed. -/
theorem C4_latex_escape_table :
    (∀ s t : String, _latex_escape (s ++ t) = _latex_escape s ++ _latex_escape t)
  ∧ _latex_escape "&" = "\\&"
  ∧ _latex_escape "%" = "\\%"
  ∧ _latex_escape "$" = "\\$"
  ∧ _latex_escape "#" = "\\#"
  ∧ _latex_escape "_" = "\\letterunderscore\x7b\x7d"
  ∧ _latex_escape "\x7b" = "\\letteropenbrace\x7b\x7d"
  ∧ _latex_escape "\x7d" = "\\letterclosebrace\x7b\x7d"
  ∧ _latex_escape "~" = "\\lettertilde\x7b\x7d"
  ∧ _latex_escape "^" = "\\letterhat\x7b\x7d"
  ∧ _latex_escape "\\" = "\\letterbackslash\x7b\x7d"
  ∧ _latex_escape ">" = "\\textgreater"
  ∧ _latex_escape "<" = "\\textless"
  ∧ (∀ c : Char,
      c ∉ (['&', '%', '$', '#', '_', Char.ofNat 123, Char.ofNat 125,
            '~', '^', '\\', '>', '<'] : List Char) →
      _latex_escape ⟨[c]⟩ = ⟨[c]⟩)
  ∧ _latex_escape "1.0_beta#2" = "1.0\\letterunderscore\x7b\x7dbeta\\#2" := by
  refine ⟨?_, by decide, by decide, by decide, by decide, by decide, by decide,
    by decide, by decide, by decide, by decide, by decide, by decide, ?_, by decide⟩
  · intro s t
    simp [_latex_escape, List.map_append, strJoin_append]
  · intro c hc
    simp only [List.mem_cons, List.not_mem_nil, or_false, not_or] at hc
    obtain ⟨h1, h2, h3, h4, h5, h6, h7, h8, h9, h10, h11, h12⟩ := hc
    rw [latex_escape_singleton]
    simp [latexEscapeChar, h1, h2, h3, h4, h5, h6, h7, h8, h9, h10, h11, h12]

/-- C4 (witness): a character outside the table passes through unchanged. -/
theorem C4_latex_escape_table_witness : _latex_escape ⟨['z']⟩ = ⟨['z']⟩ :=
  C4_latex_escape_table.2.2.2.2.2.2.2.2.2.2.2.2.2.1 'z' (by decide)

/-! ## C5 -/

/-- C5 (counterexample): `cgi.escape` is called without `quote=True`, so a
double quote in a version value is NOT escaped: the rendering of a report
whose only entry has version `"` contains the literal quote, not
`&quot;` as the claim requires. -/
theorem C5_counterexample :
    cgi_escape "\"" = "\""
  ∧ htmlSpecEscape "\"" = "&quot;"
  ∧ _repr_html_ { packages := [("m", "\"")], time := "T" }
      = "<table><tr><th>Software</th><th>Version</th></tr><tr><td>m</td><td>\"</td></tr><tr><td colspan=\x272\x27>T</td></tr></table>"
  ∧ _repr_html_ { packages := [("m", "\"")], time := "T" }
      ≠ "<table><tr><th>Software</th><th>Version</th></tr><tr><td>m</td><td>&quot;</td></tr><tr><td colspan=\x272\x27>T</td></tr></table>" :=
  ⟨by decide, by decide, by decide, by decide⟩

/-- C5 (amended): the HTML rendering is the table with header row
`Software | Version`, one row per entry in report order with the version
value escaped by `cgi.escape` — which escapes ampersand and angle brackets
only, not quotes — and a final two-column-span timestamp row.  The escape
is a single-pass character map: a homomorphism sending `&`, `<`, `>` to
entities and every other character (including `"`) through unchanged. -/
theorem C5_html_rendering_amended (r : Report) :
    _repr_html_ r
      = "<table><tr><th>Software</th><th>Version</th></tr>"
        ++ strJoin (r.packages.map
            (fun p => "<tr><td>" ++ p.1 ++ "</td><td>" ++ cgi_escape p.2 ++ "</td></tr>"))
        ++ "<tr><td colspan=\x272\x27>" ++ r.time ++ "</td></tr></table>"
  ∧ (∀ s t : String, cgi_escape (s ++ t) = cgi_escape s ++ cgi_escape t)
  ∧ cgi_escape "&" = "&amp;"
  ∧ cgi_escape "<" = "&lt;"
  ∧ cgi_escape ">" = "&gt;"
  ∧ (∀ c : Char, c ∉ (['&', '<', '>'] : List Char) → cgi_escape ⟨[c]⟩ = ⟨[c]⟩) := by
  refine ⟨?_, ?_, by decide, by decide, by decide, ?_⟩
  · simp only [_repr_html_, htmlPieces, List.append_eq, List.nil_append, strJoin_append,
      strJoin, String.append_assoc, String.append_empty]
    rw [← String.append_assoc "<table>" "<tr><th>Software</th><th>Version</th></tr>"]
    simp
  · intro s t
    simp [cgi_escape, List.map_append, strJoin_append]
  · intro c hc
    simp only [List.mem_cons, List.not_mem_nil, or_false, not_or] at hc
    obtain ⟨h1, h2, h3⟩ := hc
    simp [cgi_escape, strJoin, cgiEscapeChar, h1, h2, h3]

/-- C5 (witness): the amended escape applied at the quote character — it
passes through unescaped. -/
theorem C5_html_rendering_amended_witness : cgi_escape ⟨['"']⟩ = ⟨['"']⟩ :=
  (C5_html_rendering_amended { packages := [], time := "" }).2.2.2.2.2 '"' (by decide)

/-! ## C7 -/

/-- C7: the plain/pretty rendering is the two-line banner, then the
timestamp line, then the first three entries as `# name: version` comment
lines, then every remaining entry as a `name==version` line with version
values inserted literally; in particular the banner is a prefix of the
output. -/
theorem C7_pretty_rendering (r : Report) :
    _repr_pretty_ r
      = "# Software versions\n# -----------------\n" ++ ("# " ++ r.time ++ "\n")
        ++ strJoin ((r.packages.take 3).map (fun p => "# " ++ p.1 ++ ": " ++ p.2 ++ "\n"))
        ++ strJoin ((r.packages.drop 3).map (fun p => p.1 ++ "==" ++ p.2 ++ "\n"))
  ∧ List.IsPrefix "# Software versions\n# -----------------\n".data
      (_repr_pretty_ r).data := by
  have h : _repr_pretty_ r
      = "# Software versions\n# -----------------\n" ++ ("# " ++ r.time ++ "\n")
        ++ strJoin ((r.packages.take 3).map (fun p => "# " ++ p.1 ++ ": " ++ p.2 ++ "\n"))
        ++ strJoin ((r.packages.drop 3).map (fun p => p.1 ++ "==" ++ p.2 ++ "\n")) := by
    simp only [_repr_pretty_, prettyPieces, List.append_eq, List.nil_append, strJoin_append,
      strJoin, String.append_assoc, String.append_empty]
  refine ⟨h, ?_⟩
  have h2 : (_repr_pretty_ r).data
      = "# Software versions\n# -----------------\n".data
        ++ (("# " ++ r.time ++ "\n")
          ++ strJoin ((r.packages.take 3).map (fun p => "# " ++ p.1 ++ ": " ++ p.2 ++ "\n"))
          ++ strJoin ((r.packages.drop 3).map (fun p => p.1 ++ "==" ++ p.2 ++ "\n"))).data := by
    rw [h]; simp
  exact ⟨_, h2.symm⟩

/-! ## C8 -/

/-- C8: every rendering operation is pure with respect to the report —
as state transformers the render methods return the report unchanged, and
any sequence of render calls, in any order and with repetitions, returns
for each format exactly the string that format yields on the original
report. -/
theorem C8_render_purity (fs : List Format) (r : Report) :
    (runRenders fs r).2 = r
  ∧ (runRenders fs r).1 = fs.map (fun f => renderOf f r)
  ∧ ∀ f : Format, renderStep f r = (renderOf f r, r) := by
  refine ⟨?_, ?_, fun f => rfl⟩
  · induction fs with
    | nil => rfl
    | cons f fs ih => simp [runRenders, renderStep, ih]
  · induction fs with
    | nil => rfl
    | cons f fs ih => simp [runRenders, renderStep, ih]

/-! ## C9 -/

/-- C9 (counterexample): the collector stores the report on the single
shared magics object and returns that object, so a later invocation
overwrites the report obtained earlier: after calling with `"numpy"` at
`T2`, the object returned by the first call (the same object) no longer
holds the report collected at `T1` from the empty line. -/
theorem C9_counterexample :
    (invoke (invoke { report := none } env0 "T1" "") env0 "T2" "numpy").report
      = some (version_information env0 "T2" "numpy")
  ∧ version_information env0 "T2" "numpy" ≠ version_information env0 "T1" ""
  ∧ (invoke (invoke { report := none } env0 "T1" "") env0 "T2" "numpy").report
      ≠ some (version_information env0 "T1" "") :=
  ⟨rfl, by decide, by decide⟩

/-- C9 (amended): each invocation recomputes entries and timestamp afresh
from its own arguments — the result is independent of any prior state (no
caching) — but it writes them into the one shared magics object and
returns that object, so after any later invocation the shared object holds
the later report. -/
theorem C9_invocation_amended (inst inst2 : MagicInstance) (env env2 : Env)
    (t line t2 line2 : String) :
    invoke inst env t line = invoke inst2 env t line
  ∧ (invoke inst env t line).report = some (version_information env t line)
  ∧ (invoke (invoke inst env t line) env2 t2 line2).report
      = some (version_information env2 t2 line2) :=
  ⟨rfl, rfl, rfl⟩

/-! ## C10 -/

/-- C10: in the HTML and LaTeX renderings only the version value of each
entry is escaped: entry names and the timestamp are inserted verbatim (for
a report with a single entry the output is exactly the surrounding markup
with the raw name `n` and timestamp `t` and the escaped version), and for
every report each entry contributes the unescaped fragment
`<tr><td>NAME</td><td>` to the HTML output. -/
theorem C10_escape_only_version (n v t : String) (r : Report) :
    _repr_html_ { packages := [(n, v)], time := t }
      = "<table>" ++ "<tr><th>Software</th><th>Version</th></tr>" ++ "<tr><td>" ++ n
        ++ "</td><td>" ++ cgi_escape v ++ "</td></tr>"
        ++ "<tr><td colspan=\x272\x27>" ++ t ++ "</td></tr>" ++ "</table>"
  ∧ _repr_latex_ { packages := [(n, v)], time := t }
      = "\\begin\x7btabular\x7d\x7b|l|l|\x7d\\hline\\n"
        ++ "\x7b\\bf Software\x7d & \x7b\\bf Version\x7d \\\\ \\hline\\hline\\n"
        ++ n ++ " & " ++ _latex_escape v ++ " \\\\ \\hline\\n"
        ++ "\\hline \\multicolumn\x7b2\x7d\x7b|l|\x7d\x7b" ++ t ++ "\x7d \\\\ \\hline\\n"
        ++ "\\end\x7btabular\x7d\\n"
  ∧ ∀ p ∈ r.packages,
      List.IsInfix ("<tr><td>" ++ p.1 ++ "</td><td>").data (_repr_html_ r).data := by
  refine ⟨?_, ?_, ?_⟩
  · simp only [_repr_html_, htmlPieces, List.map_cons, List.map_nil, List.append_eq,
      List.nil_append, strJoin_append, strJoin, String.append_assoc, String.append_empty]
  · simp only [_repr_latex_, latexPieces, List.map_cons, List.map_nil, List.append_eq,
      List.nil_append, strJoin_append, strJoin, String.append_assoc, String.append_empty]
  · intro p hp
    obtain ⟨s1, s2, hsplit⟩ := List.append_of_mem hp
    refine ⟨(strJoin (["<table>", "<tr><th>Software</th><th>Version</th></tr>"]
        ++ s1.map (fun q => "<tr><td>" ++ q.1 ++ "</td><td>" ++ cgi_escape q.2 ++ "</td></tr>"))).data,
      ((cgi_escape p.2 ++ "</td></tr>")
        ++ strJoin (s2.map (fun q => "<tr><td>" ++ q.1 ++ "</td><td>" ++ cgi_escape q.2 ++ "</td></tr>")
            ++ ["<tr><td colspan=\x272\x27>" ++ r.time ++ "</td></tr>", "</table>"])).data, ?_⟩
    rw [_repr_html_, htmlPieces, hsplit]
    simp only [List.map_append, List.map_cons, List.append_eq, List.nil_append,
      strJoin_append, strJoin, String.data_append, String.append_assoc,
      String.append_empty, List.append_assoc]

/-- C10 (witness): a concrete report whose entry name contains `<`, `_`,
and `&` contributes that name verbatim to the HTML output. -/
theorem C10_escape_only_version_witness :
    List.IsInfix ("<tr><td>" ++ "a<b_&" ++ "</td><td>").data
      (_repr_html_ { packages := [("a<b_&", "1")], time := "T" }).data :=
  (C10_escape_only_version "x" "y" "z" { packages := [("a<b_&", "1")], time := "T" }).2.2
    ("a<b_&", "1") (by decide)

/-! ## C6 -/

theorem hexVal_hexDigitChar (n : Nat) (h : n < 16) :
    hexVal (hexDigitChar n) = some n := by
  interval_cases n <;> decide

theorem parseStrBody_escape_char (c : Char) (l : List Char) :
    parseStrBody ((jsonEscapeChar c).data ++ l)
      = (parseStrBody l).map (fun p => (c :: p.1, p.2)) := by
  by_cases h1 : c = '"'
  · subst h1
    rw [show (jsonEscapeChar '"').data = ['\\', '"'] from rfl]
    simp only [List.cons_append, List.nil_append]
    rw [parseStrBody.eq_def]
    simp [unescapeChar]
    cases parseStrBody l <;> simp
  by_cases h2 : c = '\\'
  · subst h2
    rw [show (jsonEscapeChar '\\').data = ['\\', '\\'] from rfl]
    simp only [List.cons_append, List.nil_append]
    rw [parseStrBody.eq_def]
    simp [unescapeChar]
    cases parseStrBody l <;> simp
  by_cases h3 : c = '\n'
  · subst h3
    rw [show (jsonEscapeChar '\n').data = ['\\', 'n'] from rfl]
    simp only [List.cons_append, List.nil_append]
    rw [parseStrBody.eq_def]
    simp [unescapeChar]
    cases parseStrBody l <;> simp
  by_cases h4 : c = '\r'
  · subst h4
    rw [show (jsonEscapeChar '\r').data = ['\\', 'r'] from rfl]
    simp only [List.cons_append, List.nil_append]
    rw [parseStrBody.eq_def]
    simp [unescapeChar]
    cases parseStrBody l <;> simp
  by_cases h5 : c = '\t'
  · subst h5
    rw [show (jsonEscapeChar '\t').data = ['\\', 't'] from rfl]
    simp only [List.cons_append, List.nil_append]
    rw [parseStrBody.eq_def]
    simp [unescapeChar]
    cases parseStrBody l <;> simp
  by_cases h6 : c = Char.ofNat 8
  · subst h6
    rw [show (jsonEscapeChar (Char.ofNat 8)).data = ['\\', 'b'] from rfl]
    simp only [List.cons_append, List.nil_append]
    rw [parseStrBody.eq_def]
    simp [unescapeChar]
    cases parseStrBody l <;> simp
  by_cases h7 : c = Char.ofNat 12
  · subst h7
    rw [show (jsonEscapeChar (Char.ofNat 12)).data = ['\\', 'f'] from rfl]
    simp only [List.cons_append, List.nil_append]
    rw [parseStrBody.eq_def]
    simp [unescapeChar]
    cases parseStrBody l <;> simp
  by_cases h8 : c.toNat < 32
  · have hd : (jsonEscapeChar c).data
        = ['\\', 'u', '0', '0', hexDigitChar (c.toNat / 16), hexDigitChar (c.toNat % 16)] := by
      simp [jsonEscapeChar, h1, h2, h3, h4, h5, h6, h7, h8]
    rw [hd]
    simp only [List.cons_append, List.nil_append]
    have hx : hex4 '0' '0' (hexDigitChar (c.toNat / 16)) (hexDigitChar (c.toNat % 16))
        = some c.toNat := by
      have d1 : hexVal '0' = some 0 := by decide
      have d2 := hexVal_hexDigitChar (c.toNat / 16) (by omega)
      have d3 := hexVal_hexDigitChar (c.toNat % 16) (by omega)
      simp [hex4, d1, d2, d3]
      omega
    simp [parseStrBody, hx, Char.ofNat_toNat]
    cases parseStrBody l <;> simp
  · have hd : (jsonEscapeChar c).data = [c] := by
      simp [jsonEscapeChar, h1, h2, h3, h4, h5, h6, h7, h8]
    rw [hd]
    simp only [List.cons_append, List.nil_append]
    rw [parseStrBody.eq_def]
    simp [h1, h2]
    cases parseStrBody l <;> simp

theorem parseStrBody_roundtrip (cs : List Char) (l : List Char) :
    parseStrBody ((strJoin (cs.map jsonEscapeChar)).data ++ '"' :: l)
      = some (cs, l) := by
  induction cs with
  | nil =>
    show parseStrBody ('"' :: l) = some ([], l)
    rw [parseStrBody.eq_def]
    simp
  | cons c cs ih =>
    simp only [List.map_cons, strJoin, String.data_append, List.append_assoc]
    rw [parseStrBody_escape_char, ih]
    rfl

theorem dropLit_append (lit l : List Char) : dropLit lit (lit ++ l) = some l := by
  induction lit with
  | nil => rfl
  | cons c cs ih => simp [dropLit, ih]

theorem jsonEntry_data_shape (p : String × String) (l : List Char) :
    (jsonEntry p).data ++ l
      = ("\x7b\"module\": \"" : String).data
        ++ ((strJoin (p.1.data.map jsonEscapeChar)).data
          ++ '"' :: ((", \"version\": \"" : String).data
            ++ ((strJoin (p.2.data.map jsonEscapeChar)).data
              ++ '"' :: (("\x7d" : String).data ++ l)))) := by
  have e1 : ("\x7b\"module\": \"" : String).data
      = ("\x7b\"module\": " : String).data ++ ['"'] := by decide
  have e2 : (", \"version\": \"" : String).data
      = (", \"version\": " : String).data ++ ['"'] := by decide
  have e3 : ("\"" : String).data = ['"'] := by decide
  simp [jsonEntry, jsonStr, e1, e2, e3, List.append_assoc]

theorem parseEntry_encode (p : String × String) (l : List Char) :
    parseEntry ((jsonEntry p).data ++ l) = some (p, l) := by
  rw [jsonEntry_data_shape]
  simp only [parseEntry, dropLit_append, parseStrBody_roundtrip]

theorem parseEntriesAux_encode (ps : List (String × String)) (p : String × String)
    (fuel : Nat) (hfuel : ps.length + 1 ≤ fuel) (l : List Char) :
    parseEntriesAux fuel ((sepJoin ", " ((p :: ps).map jsonEntry)).data ++ ']' :: l)
      = some (p :: ps, l) := by
  induction ps generalizing p fuel with
  | nil =>
    obtain ⟨f, rfl⟩ : ∃ f, fuel = f + 1 := ⟨fuel - 1, by omega⟩
    simp only [List.map_cons, List.map_nil, sepJoin]
    simp only [parseEntriesAux, parseEntry_encode]
  | cons q qs ih =>
    obtain ⟨f, rfl⟩ : ∃ f, fuel = f + 1 := ⟨fuel - 1, by omega⟩
    have hsep : sepJoin ", " ((p :: q :: qs).map jsonEntry)
        = jsonEntry p ++ ", " ++ sepJoin ", " ((q :: qs).map jsonEntry) := by
      simp [sepJoin]
    have hcomma : (", " : String).data = [',', ' '] := by decide
    rw [hsep]
    have hdata : (jsonEntry p ++ ", " ++ sepJoin ", " ((q :: qs).map jsonEntry)).data
          ++ ']' :: l
        = (jsonEntry p).data
          ++ (',' :: ' ' :: ((sepJoin ", " ((q :: qs).map jsonEntry)).data ++ ']' :: l)) := by
      simp [hcomma, List.append_assoc]
    rw [hdata]
    simp only [parseEntriesAux, parseEntry_encode]
    rw [ih q f (by simp at hfuel ⊢; omega)]

theorem sepJoin_entries_length (p : String × String) (ps : List (String × String)) :
    ps.length ≤ (sepJoin ", " ((p :: ps).map jsonEntry)).data.length := by
  induction ps generalizing p with
  | nil => simp
  | cons q qs ih =>
    have hsep : sepJoin ", " ((p :: q :: qs).map jsonEntry)
        = jsonEntry p ++ ", " ++ sepJoin ", " ((q :: qs).map jsonEntry) := by
      simp [sepJoin]
    rw [hsep]
    have := ih q
    simp only [String.data_append, List.length_append, List.length_cons] at this ⊢
    omega

theorem parseReport_json (r : Report) : parseReport (_repr_json_ r) = some r.packages := by
  rcases hps : r.packages with _ | ⟨p, ps⟩
  · unfold _repr_json_
    rw [hps]
    decide
  · unfold _repr_json_ parseReport
    rw [hps]
    have hdata : ("\x7b\"Software versions\": [" ++ sepJoin ", " ((p :: ps).map jsonEntry)
          ++ "]\x7d").data
        = ("\x7b\"Software versions\": [" : String).data
          ++ ((sepJoin ", " ((p :: ps).map jsonEntry)).data ++ ']' :: ['\x7d']) := by
      have e : ("]\x7d" : String).data = [']', '\x7d'] := by decide
      simp [e, List.append_assoc]
    have hentry : ∃ t0, (jsonEntry p).data = '\x7b' :: t0 := by
      have h0 := jsonEntry_data_shape p []
      rw [List.append_nil] at h0
      rw [h0, show ("\x7b\"module\": \"" : String).data
          = '\x7b' :: ("\"module\": \"" : String).data from by decide]
      exact ⟨_, rfl⟩
    have hsepstart : ∃ t1, (sepJoin ", " ((p :: ps).map jsonEntry)).data
        = (jsonEntry p).data ++ t1 := by
      cases ps with
      | nil => exact ⟨[], by simp [sepJoin]⟩
      | cons q qs =>
        refine ⟨(", " ++ sepJoin ", " ((q :: qs).map jsonEntry)).data, ?_⟩
        simp [sepJoin, List.append_assoc]
    rw [hdata, dropLit_append]
    split
    next heq => exact absurd heq (by simp)
    next l5 heq =>
      have hX : (sepJoin ", " ((p :: ps).map jsonEntry)).data ++ ']' :: ['\x7d'] = l5 :=
        Option.some.inj heq
      subst hX
      split
      next rest heq2 =>
        exfalso
        obtain ⟨t0, ht0⟩ := hentry
        obtain ⟨t1, ht1⟩ := hsepstart
        rw [ht1, ht0] at heq2
        simp at heq2
      next =>
        have hlen := sepJoin_entries_length p ps
        simp only [List.map_cons] at hlen
        rw [parseEntriesAux_encode ps p _
          (by simp only [List.map_cons, List.length_append, List.length_cons]; omega)]
        simp


/-- C6: the JSON rendering is a single object whose one key
`Software versions` holds the ordered entry array with `module`/`version`
fields, and no timestamp: parsing the rendering back recovers exactly the
report's entry list (same length, same fields, same order), and the
rendering is independent of the report's timestamp. -/
theorem C6_json_roundtrip (r : Report) :
    parseReport (_repr_json_ r) = some r.packages
  ∧ (∀ t2 : String, _repr_json_ { packages := r.packages, time := t2 } = _repr_json_ r)
  ∧ (parseReport (_repr_json_ r)).map List.length = some r.packages.length := by
  refine ⟨parseReport_json r, fun t2 => rfl, ?_⟩
  rw [parseReport_json r]
  rfl

end VersionInfo

